import Mathlib

/-!
Verification development for the photoserv Flickr plugin
(src/plugins/flickr.py).  The plugin code is shallowly embedded:
strings that undergo byte level processing are modelled as lists of
naturals (one entry per utf8 byte), the OAuth signer, the multipart
body builder and the response handlers are translated function by
function, and the publish and unpublish event handlers are modelled as
explicit state passing functions over the host key value store,
recording every outbound network request in a trace.
-/

namespace Flickr

/-- Byte strings: lists of naturals, one entry per byte. -/
abbrev Bs := List Nat

/-- Bytes that urllib.parse.quote never escapes when safe is the empty
string: ASCII letters, digits, underscore, dot, dash and tilde. -/
def safeBytes : Bs :=
  ((List.range 26).map (fun i => 65 + i)) ++ ((List.range 26).map (fun i => 97 + i)) ++
    ((List.range 10).map (fun i => 48 + i)) ++ [95, 46, 45, 126]

/-- Membership test in the safe byte set of urllib.parse.quote. -/
def isSafeByte (b : Nat) : Bool := safeBytes.contains b

/-- Upper case hexadecimal digit, as urllib percent escapes produce. -/
def hexUpper (d : Nat) : Nat := if d < 10 then 48 + d else 55 + d

/-- Percent encoding of a single byte: a safe byte stands for itself,
any other byte becomes a percent sign and two upper case hex digits. -/
def pctByte (b : Nat) : Bs :=
  if isSafeByte b then [b] else [37, hexUpper (b / 16), hexUpper (b % 16)]

/-- urllib.parse.quote with safe set to the empty string, over bytes. -/
def pyQuote : Bs → Bs
  | [] => []
  | b :: rest => pctByte b ++ pyQuote rest

/-- Lexicographic strict comparison on byte strings, the order Python
uses to compare strings of code points below 128. -/
def bytesLtB : Bs → Bs → Bool
  | [], [] => false
  | [], _ :: _ => true
  | _ :: _, [] => false
  | a :: as, b :: bs => if a < b then true else if b < a then false else bytesLtB as bs

/-- Strict comparison of key value pairs, the tuple order Python uses in
sorted on dict items: first keys, then values. -/
def pairLtB (p q : Bs × Bs) : Bool :=
  if bytesLtB p.1 q.1 then true
  else if bytesLtB q.1 p.1 then false
  else bytesLtB p.2 q.2

/-- Non strict pair order: p may precede q in a stable ascending sort. -/
def pairLeB (p q : Bs × Bs) : Bool := !(pairLtB q p)

/-- Non strict key only order, used by the specification side sort. -/
def keyLeB (p q : Bs × Bs) : Bool := !(bytesLtB q.1 p.1)

/-- Insert an element into a list, in front of the first entry it may
precede according to the given order. -/
def insertSorted (le : α → α → Bool) (x : α) : List α → List α
  | [] => [x]
  | y :: ys => if le x y then x :: y :: ys else y :: insertSorted le x ys

/-- Stable insertion sort; with the pair order it computes exactly what
the Python builtin sorted returns on dict items. -/
def sortBy (le : α → α → Bool) : List α → List α
  | [] => []
  | x :: xs => insertSorted le x (sortBy le xs)

/-- The sort the source applies: sorted(params.items()). -/
def sortPairs (ps : List (Bs × Bs)) : List (Bs × Bs) := sortBy pairLeB ps

/-- Join byte strings with the ampersand byte, as a join with the one
character separator does in Python. -/
def joinAmp : List Bs → Bs
  | [] => []
  | [x] => x
  | x :: y :: rest => x ++ 38 :: joinAmp (y :: rest)

/-- One key value piece of the parameter string: the key as is, the
equals byte, then the percent encoded value, mirroring the f string
in the source where only the value passes through quote. -/
def paramPiece (p : Bs × Bs) : Bs := p.1 ++ 61 :: pyQuote p.2

/-- The parameter string of the source: sort the items, render each as
key equals encoded value, join with ampersands. -/
def paramString (ps : List (Bs × Bs)) : Bs := joinAmp ((sortPairs ps).map paramPiece)

/-- ASCII upper casing of a byte string, modelling str.upper on the
ASCII method names the plugin uses. -/
def asciiUpper (bs : Bs) : Bs := bs.map (fun b => if 97 ≤ b ∧ b ≤ 122 then b - 32 else b)

/-- The signature base string: upper cased method, percent encoded url
and percent encoded parameter string, joined with ampersands. -/
def baseString (method url : Bs) (ps : List (Bs × Bs)) : Bs :=
  joinAmp [asciiUpper method, pyQuote url, pyQuote (paramString ps)]

/-- The signing key: percent encoded consumer secret, ampersand,
percent encoded token secret. -/
def signingKey (cs ts : Bs) : Bs := pyQuote cs ++ 38 :: pyQuote ts

/-- Two to the thirty second power, the word modulus of SHA1. -/
def w32 : Nat := 4294967296

/-- Rotate a 32 bit word left by n bits. -/
def rotl (n w : Nat) : Nat := ((w <<< n) % w32) ||| (w >>> (32 - n))

/-- The SHA1 round constants. -/
def sha1K (i : Nat) : Nat :=
  if i < 20 then 1518500249 else if i < 40 then 1859775393
  else if i < 60 then 2400959708 else 3395469782

/-- The SHA1 round functions. -/
def sha1F (i b c d : Nat) : Nat :=
  if i < 20 then (b &&& c) ||| ((b ^^^ 4294967295) &&& d)
  else if i < 40 then b ^^^ c ^^^ d
  else if i < 60 then (b &&& c) ||| (b &&& d) ||| (c &&& d)
  else b ^^^ c ^^^ d

/-- Big endian 32 bit words out of a byte string, four bytes each. -/
def bytesToWords : Bs → List Nat
  | a :: b :: c :: d :: rest => (((a * 256 + b) * 256 + c) * 256 + d) :: bytesToWords rest
  | _ => []

/-- Message schedule expansion, keeping the words in reverse order so
the four taps sit near the head of the list. -/
def expandWordsRev : Nat → List Nat → List Nat
  | 0, rev => rev
  | n + 1, rev =>
    expandWordsRev n
      (rotl 1 ((rev.getD 2 0) ^^^ (rev.getD 7 0) ^^^ (rev.getD 13 0) ^^^ (rev.getD 15 0)) :: rev)

/-- The five word SHA1 state. -/
abbrev Sha1St := Nat × Nat × Nat × Nat × Nat

/-- The eighty SHA1 rounds, driven by the indexed message schedule. -/
def sha1Rounds : List (Nat × Nat) → Sha1St → Sha1St
  | [], st => st
  | (i, w) :: rest, (a, b, c, d, e) =>
    sha1Rounds rest ((rotl 5 a + sha1F i b c d + e + sha1K i + w) % w32, a, rotl 30 b, c, d)

/-- Compress one 64 byte chunk into the running state. -/
def processChunk (chunk : Bs) (h : Sha1St) : Sha1St :=
  match h, sha1Rounds ((List.range 80).zip (expandWordsRev 64 (bytesToWords chunk).reverse).reverse) h with
  | (h0, h1, h2, h3, h4), (a, b, c, d, e) =>
    ((h0 + a) % w32, (h1 + b) % w32, (h2 + c) % w32, (h3 + d) % w32, (h4 + e) % w32)

/-- Fold the compression function over all 64 byte chunks; the fuel
argument only bounds the recursion and never runs out when it starts
at the length of the message, since every step consumes 64 bytes. -/
def sha1ChunksFuel : Nat → Bs → Sha1St → Sha1St
  | 0, _, st => st
  | _, [], st => st
  | fuel + 1, b :: rest, st =>
    sha1ChunksFuel fuel ((b :: rest).drop 64) (processChunk ((b :: rest).take 64) st)

/-- Fold the compression function over all 64 byte chunks. -/
def sha1Chunks (bs : Bs) (st : Sha1St) : Sha1St := sha1ChunksFuel bs.length bs st

/-- Big endian eight byte rendering of the bit length. -/
def be8 (n : Nat) : Bs :=
  [(n >>> 56) % 256, (n >>> 48) % 256, (n >>> 40) % 256, (n >>> 32) % 256,
   (n >>> 24) % 256, (n >>> 16) % 256, (n >>> 8) % 256, n % 256]

/-- SHA1 padding: a 128 byte, zeros up to 56 mod 64, then the length. -/
def sha1Pad (msg : Bs) : Bs :=
  msg ++ 128 :: (List.replicate ((119 - msg.length % 64) % 64) 0 ++ be8 (8 * msg.length))

/-- Big endian four byte rendering of one state word. -/
def w2b4 (n : Nat) : Bs := [(n >>> 24) % 256, (n >>> 16) % 256, (n >>> 8) % 256, n % 256]

/-- The SHA1 digest of a byte string, twenty bytes. -/
def sha1 (msg : Bs) : Bs :=
  match sha1Chunks (sha1Pad msg) (1732584193, 4023233417, 2562383102, 271733878, 3285377520) with
  | (h0, h1, h2, h3, h4) => w2b4 h0 ++ w2b4 h1 ++ w2b4 h2 ++ w2b4 h3 ++ w2b4 h4

/-- HMAC SHA1 exactly as hmac.new with hashlib.sha1 computes it. -/
def hmacSha1 (key msg : Bs) : Bs :=
  let k0 := if 64 < key.length then sha1 key else key
  let kp := k0 ++ List.replicate (64 - k0.length) 0
  sha1 ((kp.map (fun b => b ^^^ 92)) ++ sha1 ((kp.map (fun b => b ^^^ 54)) ++ msg))

/-- The base64 alphabet as bytes. -/
def b64table : Bs :=
  ((List.range 26).map (fun i => 65 + i)) ++ ((List.range 26).map (fun i => 97 + i)) ++
    ((List.range 10).map (fun i => 48 + i)) ++ [43, 47]

/-- One base64 alphabet character. -/
def b64c (n : Nat) : Nat := b64table.getD n 0

/-- Standard base64 with padding, as base64.b64encode produces. -/
def base64encode : Bs → Bs
  | a :: b :: c :: rest =>
    let n := (a * 256 + b) * 256 + c
    b64c (n / 262144 % 64) :: b64c (n / 4096 % 64) :: b64c (n / 64 % 64) :: b64c (n % 64) ::
      base64encode rest
  | [a, b] =>
    let n := (a * 256 + b) * 4
    [b64c (n / 4096 % 64), b64c (n / 64 % 64), b64c (n % 64), 61]
  | [a] =>
    let n := a * 16
    [b64c (n / 64), b64c (n % 64), 61, 61]
  | [] => []

/-- The signing function of the source, generate_oauth_signature:
base64 of the HMAC SHA1 of the base string under the signing key. -/
def generate_oauth_signature (method url : Bs) (ps : List (Bs × Bs)) (cs ts : Bs) : Bs :=
  base64encode (hmacSha1 (signingKey cs ts) (baseString method url ps))

/-- The unreserved bytes of RFC 3986 as the specification words them:
letters, digits, dash, dot, underscore and tilde. -/
def specUnreserved (b : Nat) : Bool :=
  (65 ≤ b && b ≤ 90) || (97 ≤ b && b ≤ 122) || (48 ≤ b && b ≤ 57) ||
    b == 45 || b == 46 || b == 95 || b == 126

/-- Percent encoding as the specification words it: every byte outside
the unreserved set becomes a percent escape. -/
def specPctEncode : Bs → Bs
  | [] => []
  | b :: rest =>
    (if specUnreserved b then [b] else [37, hexUpper (b / 16), hexUpper (b % 16)]) ++
      specPctEncode rest

/-- Sorting parameters by key only, as the specification words it. -/
def sortByKey (ps : List (Bs × Bs)) : List (Bs × Bs) := sortBy keyLeB ps

/-- The parameter string exactly as the claim words it: both key and
value percent encoded, joined as key equals value pairs. -/
def claimParamString (ps : List (Bs × Bs)) : Bs :=
  joinAmp ((sortByKey ps).map (fun p => specPctEncode p.1 ++ 61 :: specPctEncode p.2))

/-- The signing algorithm exactly as the claim words it, with keys
percent encoded alongside values. -/
def claim_signature (method url : Bs) (ps : List (Bs × Bs)) (cs ts : Bs) : Bs :=
  base64encode (hmacSha1
    (specPctEncode cs ++ [38] ++ specPctEncode ts)
    (asciiUpper method ++ [38] ++ specPctEncode url ++ [38] ++
      specPctEncode (claimParamString ps)))

/-- The parameter string with only the value percent encoded, the
amended reading forced by the source. -/
def specParamString (ps : List (Bs × Bs)) : Bs :=
  joinAmp ((sortByKey ps).map (fun p => p.1 ++ 61 :: specPctEncode p.2))

/-- The amended specification signing algorithm: as the claim, except
that keys enter the parameter string unencoded. -/
def spec_signature (method url : Bs) (ps : List (Bs × Bs)) (cs ts : Bs) : Bs :=
  base64encode (hmacSha1
    (specPctEncode cs ++ [38] ++ specPctEncode ts)
    (asciiUpper method ++ [38] ++ specPctEncode url ++ [38] ++
      specPctEncode (specParamString ps)))

/-- Bytes of an ASCII string literal. -/
def sb (s : String) : Bs := s.data.map Char.toNat

/-- The three writes the source loop performs per text parameter of the
multipart body: boundary line, content disposition header with the key,
then the value and a line break. -/
def fieldWrites (boundary : Bs) (p : Bs × Bs) : Bs :=
  (sb "--" ++ boundary ++ sb "\r\n") ++
    (sb "Content-Disposition: form-data; name=\"" ++ p.1 ++ sb "\"\r\n\r\n") ++
    (p.2 ++ sb "\r\n")

/-- create_multipart_body of the source: sequential writes of all text
fields, then the photo field with fixed filename and content type, the
payload bytes read from the start of the stream, and the closing
boundary line. -/
def create_multipart_body (params : List (Bs × Bs)) (photo : Bs) (boundary : Bs) : Bs :=
  (params.foldl (fun body p => body ++ fieldWrites boundary p) []) ++
    ((sb "--" ++ boundary ++ sb "\r\n") ++
      sb "Content-Disposition: form-data; name=\"photo\"; filename=\"photo.jpg\"\r\n" ++
      sb "Content-Type: image/jpeg\r\n\r\n" ++
      photo ++
      (sb "\r\n--" ++ boundary ++ sb "--\r\n"))

/-- One form field of the multipart body as the specification words
it: introduced by the boundary, a content disposition header naming
the key, then the value. -/
def specField (boundary key value : Bs) : Bs :=
  sb "--" ++ boundary ++ sb "\r\n" ++
    sb "Content-Disposition: form-data; name=\"" ++ key ++ sb "\"\r\n\r\n" ++
    value ++ sb "\r\n"

/-- The final photo field of the multipart body as the specification
words it: named photo, fixed filename, image jpeg content type, then
the payload bytes. -/
def specPhotoField (boundary photo : Bs) : Bs :=
  sb "--" ++ boundary ++ sb "\r\n" ++
    sb "Content-Disposition: form-data; name=\"photo\"; filename=\"photo.jpg\"\r\n" ++
    sb "Content-Type: image/jpeg\r\n\r\n" ++
    photo

/-- The multipart closing boundary line. -/
def specClosing (boundary : Bs) : Bs := sb "\r\n--" ++ boundary ++ sb "--\r\n"

/-- The whole multipart body as the specification describes it: one
field per parameter, the final photo field, the closing boundary. -/
def spec_multipart_body (params : List (Bs × Bs)) (photo : Bs) (boundary : Bs) : Bs :=
  ((params.map (fun p => specField boundary p.1 p.2)).foldr (· ++ ·) []) ++
    specPhotoField boundary photo ++ specClosing boundary

/-- Minimal JSON values, enough for the decoded response mappings. -/
inductive Json where
  | str (s : String)
  | num (n : Int)
  | bool (b : Bool)
  | null
  | arr (elems : List Json)
  | obj (fields : List (String × Json))

/-- Lookup in a decoded JSON mapping, like dict.get. -/
def jlookup (m : List (String × Json)) (k : String) : Option Json :=
  (m.find? (fun p => p.1 == k)).map (fun p => p.2)

/-- The Python comparison of the stat field against the string fail. -/
def isFailStat : Option Json → Bool
  | some (.str s) => s == "fail"
  | _ => false

/-- The normalized errors the plugin can raise; each constructor
carries the data the corresponding Python exception message carries. -/
inductive Exc where
  | providerError (message : Json)
  | uploadError (code message : String)
  | missingPhotoId
  | photoIdFieldMissing
  | limitReached (limit : Int)
  | imageUnavailable (size : String)
  | typeError
  | hostError (message : String)

/-- The JSON branch of flickr_api_call: a mapping with stat fail
raises a provider error carrying the message field, with Unknown error
as the default; any other mapping is returned unchanged. -/
def flickr_rest_handle (m : List (String × Json)) : Except Exc (List (String × Json)) :=
  if isFailStat (jlookup m "stat") then
    .error (.providerError ((jlookup m "message").getD (.str "Unknown error")))
  else .ok m

/-- Parsed XML elements as ElementTree presents them: tag, attributes,
direct children and optional text. -/
inductive Xml where
  | elem (tag : String) (attrs : List (String × String)) (children : List Xml)
      (text : Option String)

/-- The tag of an element. -/
def Xml.tag : Xml → String
  | .elem t _ _ _ => t

/-- The attribute list of an element. -/
def Xml.attrs : Xml → List (String × String)
  | .elem _ a _ _ => a

/-- The direct children of an element. -/
def Xml.children : Xml → List Xml
  | .elem _ _ c _ => c

/-- The text of an element. -/
def Xml.text : Xml → Option String
  | .elem _ _ _ t => t

/-- Attribute lookup, like Element.get. -/
def xmlAttr (e : Xml) (k : String) : Option String :=
  (e.attrs.find? (fun p => p.1 == k)).map (fun p => p.2)

/-- Attribute lookup with a default. -/
def xmlAttrD (e : Xml) (k d : String) : String := (xmlAttr e k).getD d

/-- First direct child with the given tag, like Element.find. -/
def xmlFind (e : Xml) (t : String) : Option Xml :=
  e.children.find? (fun c => c.tag == t)

/-- parse_upload_response of the source over the parsed tree: a root
marked fail yields an upload error carrying the code and message of
the nested err element with defaults when absent; otherwise the text
of the photoid element is returned, and its absence is an error. -/
def parse_upload_response (root : Xml) : Except Exc (Option String × String) :=
  if xmlAttr root "stat" == some "fail" then
    match xmlFind root "err" with
    | some err => .error (.uploadError (xmlAttrD err "code" "unknown") (xmlAttrD err "msg" "Unknown error"))
    | none => .error (.uploadError "unknown" "Unknown error")
  else
    match xmlFind root "photoid" with
    | some pe => .ok (pe.text, "ok")
    | none => .error .missingPhotoId

/-- Values of the host key value store: the plugin stores the integer
photo counter and string photo identifiers. -/
inductive StVal where
  | int (n : Int)
  | str (s : String)
deriving DecidableEq

/-- The host key value store, modelled as an association list with at
most one entry per key. -/
abbrev Store := List (String × StVal)

/-- config.get of the host store. -/
def storeGet : Store → String → Option StVal
  | [], _ => none
  | p :: ps, k => if p.1 == k then some p.2 else storeGet ps k

/-- config.delete of the host store. -/
def storeDel : Store → String → Store
  | [], _ => []
  | p :: ps, k => if p.1 == k then storeDel ps k else p :: storeDel ps k

/-- config.set of the host store. -/
def storeSet (st : Store) (k : String) (v : StVal) : Store := (k, v) :: storeDel st k

/-- Python truthiness of an optional stored value. -/
def truthyV : Option StVal → Bool
  | none => false
  | some (.int n) => n != 0
  | some (.str s) => s != ""

/-- Python string interpolation of an optional stored value. -/
def showStVal : Option StVal → String
  | none => "None"
  | some (.int n) => toString n
  | some (.str s) => s

/-- Read a stored value that the handler will compare as an integer,
with a default for an absent key; a stored string raises the type
error Python raises on an order comparison of str and int. -/
def readIntD (st : Store) (k : String) (d : Int) : Except Exc Int :=
  match storeGet st k with
  | none => .ok d
  | some (.int n) => .ok n
  | some (.str _) => .error .typeError

/-- One configured group set. -/
structure GroupSet where
  name : String
  groups : List String
  auto_tags : List String
  auto_albums : List String
deriving DecidableEq

/-- The plugin configuration fields the handlers consult; credentials
only feed the network layer, which the handler model abstracts as
recorded calls with environment supplied outcomes. -/
structure Cfg where
  flickr_photo_limit : Int
  upload_size : String
  photo_description_footer : String
  group_sets : List GroupSet

/-- One tag of the serialized photo data. -/
structure PhotoTag where
  name : String
deriving DecidableEq

/-- One album of the serialized photo data. -/
structure PhotoAlbum where
  uuid : String
  slug : String
deriving DecidableEq

/-- The serialized photo data the host hands to the handlers, with the
dict defaults of the source already applied. -/
structure PhotoData where
  uuid : String
  title : String
  description : String
  tags : List PhotoTag
  albums : List PhotoAlbum
  hidden : Bool

/-- The per entity parameters, with the falsy defaults of the source
already applied; an absent parameter dict is modelled as none at the
call sites that guard on it. -/
structure Params where
  override_description : String := ""
  additional_tags : List String := []
  additional_group_sets : List String := []
  force : Bool := false
  safety_level : Int := 0

/-- The force flag as the publish handler computes it: a missing
parameter dict is falsy. -/
def forceOf : Option Params → Bool
  | none => false
  | some p => p.force

/-- build_description of the source. -/
def build_description (cfg : Cfg) (data : PhotoData) (params : Option Params) : String :=
  let d := match params with
    | some p => if p.override_description != "" then p.override_description else data.description
    | none => data.description
  if cfg.photo_description_footer != "" then
    if d != "" then d ++ "\n\n" ++ cfg.photo_description_footer
    else cfg.photo_description_footer
  else d

/-- One step of the tag builder: strip spaces, skip empty and already
seen names, append otherwise. -/
def addTag (acc : List String) (nm : String) : List String :=
  let t := nm.replace " " ""
  if t != "" && !(acc.contains t) then acc ++ [t] else acc

/-- build_tags of the source: photo tags first, then the additional
tags of the entity parameters, deduplicated in order. -/
def build_tags (data : PhotoData) (params : Option Params) : List String :=
  let base := data.tags.foldl (fun acc tg => addTag acc tg.name) []
  match params with
  | some p => p.additional_tags.foldl addTag base
  | none => base

/-- get_applicable_group_sets of the source: auto matching by tags
and albums over the configured sets, then the additional sets named by
the entity parameters, without duplicates. -/
def applicable_group_sets (cfg : Cfg) (data : PhotoData) (params : Option Params) : List GroupSet :=
  let tagNames := data.tags.map (fun t => t.name)
  let albumUuids := data.albums.map (fun a => a.uuid)
  let albumSlugs := data.albums.map (fun a => a.slug)
  let auto := cfg.group_sets.foldl (fun acc gs =>
    if gs.name == "" then acc
    else if !gs.auto_tags.isEmpty && gs.auto_tags.all (fun t => tagNames.contains t) then
      acc ++ [gs]
    else if !gs.auto_albums.isEmpty &&
        gs.auto_albums.any (fun a => albumUuids.contains a || albumSlugs.contains a) then
      acc ++ [gs]
    else acc) []
  match params with
  | none => auto
  | some p => p.additional_group_sets.foldl (fun acc nm =>
      match cfg.group_sets.find? (fun gs => gs.name == nm) with
      | some gs => if acc.contains gs then acc else acc ++ [gs]
      | none => acc) auto

/-- One outbound network request of the handler model. -/
structure NetCall where
  callMethod : Option String
  isUpload : Bool
  callParams : List (String × String)
deriving DecidableEq

/-- The outcomes the outside world supplies to one handler run: the
image fetch, the upload call and the delete call. -/
structure Env where
  image : Except Exc Bool
  upload : Except Exc (Option String)
  delete : Except Exc Unit

/-- The observable outcome of one handler run: the returned or raised
result, the final store, and the trace of network calls issued. -/
structure HOut where
  result : Except Exc Unit
  store : Store
  calls : List NetCall

/-- The calls add_photo_to_groups issues: one pool add per group of
every applicable set; per call failures are swallowed by the source. -/
def group_calls (fid : String) (sets : List GroupSet) : List NetCall :=
  sets.foldl (fun acc gs =>
    acc ++ gs.groups.map (fun gid =>
      { callMethod := some "flickr.groups.pools.add", isUpload := false,
        callParams := [("photo_id", fid), ("group_id", gid)] })) []

/-- The upload parameter dict the publish handler builds. -/
def upload_params (data : PhotoData) (params : Option Params) (description : String)
    (tags : List String) : List (String × String) :=
  [("title", data.title), ("description", description),
   ("tags", String.intercalate " " tags),
   ("is_public", "1"), ("is_friend", "0"), ("is_family", "0"),
   ("hidden", if data.hidden then "2" else "1")] ++
    (match params with
     | some p =>
       if p.safety_level != 0 then
         if p.safety_level == 1 || p.safety_level == 2 || p.safety_level == 3 then
           [("safety_level", toString p.safety_level)]
         else []
       else []
     | none => [])

/-- The key of the published photo counter. -/
def countKey : String := "published_photo_count"

/-- on_photo_publish of the source, as a state passing function:
skip when already uploaded and not forced, enforce the photo limit
before any network call, fetch the image, upload, bump the counter
only for first uploads, store the new identifier, then add to groups. -/
def on_photo_publish (cfg : Cfg) (env : Env) (data : PhotoData) (params : Option Params)
    (store : Store) : HOut :=
  let force := forceOf params
  let uploadKey := data.uuid ++ "_uploaded"
  let existing := storeGet store uploadKey
  if truthyV existing && !force then
    { result := .ok (), store := store, calls := [] }
  else
    match readIntD store countKey 0 with
    | .error e => { result := .error e, store := store, calls := [] }
    | .ok published_count =>
      if cfg.flickr_photo_limit ≤ published_count then
        { result := .error (.limitReached cfg.flickr_photo_limit), store := store, calls := [] }
      else
        let description := build_description cfg data params
        let tags := build_tags data params
        match env.image with
        | .error e => { result := .error e, store := store, calls := [] }
        | .ok false =>
          { result := .error (.imageUnavailable cfg.upload_size), store := store, calls := [] }
        | .ok true =>
          let uploadCall : NetCall :=
            { callMethod := none, isUpload := true,
              callParams := upload_params data params description tags }
          match env.upload with
          | .error e => { result := .error e, store := store, calls := [uploadCall] }
          | .ok pid =>
            if pid.getD "" == "" then
              { result := .error .photoIdFieldMissing, store := store, calls := [uploadCall] }
            else
              let store1 :=
                if truthyV existing then store
                else storeSet store countKey (.int (published_count + 1))
              { result := .ok (),
                store := storeSet store1 uploadKey (.str (pid.getD "")),
                calls := uploadCall :: group_calls (pid.getD "") (applicable_group_sets cfg data params) }

/-- on_photo_unpublish of the source, as a state passing function:
skip when nothing is stored, delete the photo, drop the stored key,
then decrement the counter only when it is strictly positive. -/
def on_photo_unpublish (cfg : Cfg) (env : Env) (data : PhotoData) (params : Params)
    (store : Store) : HOut :=
  let force := params.force
  let uploadKey := data.uuid ++ "_uploaded"
  let fid := storeGet store uploadKey
  if !truthyV fid && !force then
    { result := .ok (), store := store, calls := [] }
  else if !truthyV fid && force then
    { result := .ok (), store := store, calls := [] }
  else
    let deleteCall : NetCall :=
      { callMethod := some "flickr.photos.delete", isUpload := false,
        callParams := [("photo_id", showStVal fid)] }
    match env.delete with
    | .error e => { result := .error e, store := store, calls := [deleteCall] }
    | .ok _ =>
      let store1 := storeDel store uploadKey
      match readIntD store1 countKey 0 with
      | .error e => { result := .error e, store := store1, calls := [deleteCall] }
      | .ok published_count =>
        if 0 < published_count then
          { result := .ok (), store := storeSet store1 countKey (.int (published_count - 1)),
            calls := [deleteCall] }
        else { result := .ok (), store := store1, calls := [deleteCall] }

/-- The stored photo counter, read with the default of the source. -/
def countOf (st : Store) : Int :=
  match storeGet st countKey with
  | some (.int n) => n
  | _ => 0

/-- The stored photo counter is non negative whenever present. -/
def countNonneg (st : Store) : Prop :=
  ∀ n : Int, storeGet st countKey = some (.int n) → 0 ≤ n

/-- Base 256 value of a byte string, least significant byte first;
used to pack digests into a finite type. -/
def listVal : Bs → Nat
  | [] => 0
  | b :: r => b + 256 * listVal r

/-- The family of parameter values exercising the signature collision
argument: n letters a. -/
def cexValue (n : Nat) : Bs := List.replicate n 97

/-- The HMAC digest the signing function computes on the fixed method,
url, secrets and single parameter with the n letter value. -/
def cexDigest (n : Nat) : Bs :=
  hmacSha1 (signingKey [115] [116]) (baseString [80] [104] [([107], cexValue n)])

/-- Fixture configuration for the concrete witnesses. -/
def wCfg : Cfg :=
  { flickr_photo_limit := 5, upload_size := "original",
    photo_description_footer := "", group_sets := [] }

/-- Fixture environment whose image fetch, upload and delete all
succeed. -/
def wEnv : Env := { image := .ok true, upload := .ok (some "77"), delete := .ok () }

/-- Fixture photo data for the concrete witnesses. -/
def wData : PhotoData :=
  { uuid := "u1", title := "T", description := "D", tags := [], albums := [], hidden := false }

/-- Fixture entity parameters with force set. -/
def wParamsForce : Params := { force := true }

/-! ## Lemmas about the percent encoder -/

/-- Every safe byte is at most 126. -/
theorem safeBytes_le : ∀ x ∈ safeBytes, x ≤ 126 := by decide

/-- Bytes beyond tilde are never safe. -/
theorem isSafe_false_of_large {b : Nat} (hb : 126 < b) : isSafeByte b = false := by
  cases h : isSafeByte b with
  | false => rfl
  | true => exact absurd (safeBytes_le b (List.elem_iff.mp h)) (by omega)

/-- Bytes beyond tilde are not unreserved either. -/
theorem specUnreserved_false_of_large {b : Nat} (hb : 126 < b) : specUnreserved b = false := by
  simp only [specUnreserved]
  simp
  omega

/-- The safe byte test of urllib agrees with the unreserved byte
predicate of the specification on every byte. -/
theorem isSafe_eq_spec (b : Nat) : isSafeByte b = specUnreserved b := by
  by_cases hb : b ≤ 126
  · interval_cases b <;> decide
  · rw [isSafe_false_of_large (by omega), specUnreserved_false_of_large (by omega)]

/-- The source percent encoder and the specification percent encoder
agree on every byte string. -/
theorem pyQuote_eq_spec (bs : Bs) : pyQuote bs = specPctEncode bs := by
  induction bs with
  | nil => rfl
  | cons b rest ih => simp [pyQuote, specPctEncode, pctByte, isSafe_eq_spec b, ih]

/-! ## Lemmas about the insertion sort -/

/-- Membership in an insertion. -/
theorem mem_insertSorted {le : α → α → Bool} {x y : α} :
    ∀ {l : List α}, y ∈ insertSorted le x l ↔ y = x ∨ y ∈ l := by
  intro l
  induction l with
  | nil => simp [insertSorted]
  | cons z zs ih =>
    by_cases h : le x z
    · simp [insertSorted, h]
    · simp [insertSorted, h, ih]
      tauto

/-- Membership is preserved by the sort. -/
theorem mem_sortBy {le : α → α → Bool} {y : α} : ∀ {l : List α}, y ∈ sortBy le l ↔ y ∈ l := by
  intro l
  induction l with
  | nil => simp [sortBy]
  | cons x xs ih => simp [sortBy, mem_insertSorted, ih]

/-- Insertions by orders that agree between the inserted element and
every list element coincide. -/
theorem insertSorted_congr {le1 le2 : α → α → Bool} (x : α) :
    ∀ l : List α, (∀ y ∈ l, le1 x y = le2 x y) →
      insertSorted le1 x l = insertSorted le2 x l := by
  intro l
  induction l with
  | nil => intro _; rfl
  | cons z zs ih =>
    intro h
    have hz : le1 x z = le2 x z := h z (List.mem_cons_self z zs)
    simp only [insertSorted, ← hz]
    by_cases hc : le1 x z
    · simp [hc]
    · simp [hc, ih (fun y hy => h y (List.mem_cons_of_mem z hy))]

/-- Sorts by orders that agree pairwise along the list coincide. -/
theorem sortBy_congr {le1 le2 : α → α → Bool} :
    ∀ l : List α, l.Pairwise (fun a b => le1 a b = le2 a b) →
      sortBy le1 l = sortBy le2 l := by
  intro l
  induction l with
  | nil => intro _; rfl
  | cons x xs ih =>
    intro h
    obtain ⟨hx, htail⟩ := List.pairwise_cons.mp h
    rw [sortBy, sortBy, ih htail]
    exact insertSorted_congr x _ (fun y hy => hx y (mem_sortBy.mp hy))

/-- Two byte strings neither of which is below the other are equal. -/
theorem bytesLt_connex : ∀ {a b : Bs}, bytesLtB a b = false → bytesLtB b a = false → a = b := by
  intro a
  induction a with
  | nil =>
    intro b h1 _
    cases b with
    | nil => rfl
    | cons y ys => simp [bytesLtB] at h1
  | cons x xs ih =>
    intro b h1 h2
    cases b with
    | nil => simp [bytesLtB] at h2
    | cons y ys =>
      rw [bytesLtB] at h1 h2
      by_cases hxy : x < y
      · simp [hxy] at h1
      · by_cases hyx : y < x
        · simp [hyx, hxy] at h2
        · have hx : x = y := by omega
          simp [hxy, hyx] at h1 h2
          simp [hx, ih h1 h2]

/-- Where the keys differ, the pair order and the key only order
agree. -/
theorem pairLe_eq_keyLe_of_ne {p q : Bs × Bs} (h : p.1 ≠ q.1) : pairLeB p q = keyLeB p q := by
  rw [pairLeB, keyLeB, pairLtB]
  by_cases h1 : bytesLtB q.1 p.1
  · simp [h1]
  · by_cases h2 : bytesLtB p.1 q.1
    · simp [h1, h2]
    · exact absurd (bytesLt_connex (Bool.of_not_eq_true h2) (Bool.of_not_eq_true h1)) h

/-- On parameter lists with pairwise distinct keys the sort of the
source and the key only sort of the specification coincide. -/
theorem sortPairs_eq_sortByKey {ps : List (Bs × Bs)} (hk : ps.Pairwise (fun a b => a.1 ≠ b.1)) :
    sortPairs ps = sortByKey ps :=
  sortBy_congr ps (hk.imp (fun h => pairLe_eq_keyLe_of_ne h))

/-! ## Claim C1 -/

set_option maxRecDepth 100000 in
/-- Claim C1 as frozen is refuted at a concrete input: for the single
parameter whose key is the bang byte and whose value is empty, the
source signs the parameter string with the key left unencoded, while
the claim percent encodes keys as well, and the resulting signatures
differ. -/
theorem generate_oauth_signature_claim_counterexample :
    generate_oauth_signature [] [] [([33], [])] [] [] ≠
      claim_signature [] [] [([33], [])] [] [] := by
  decide

/-- Claim C1, amended: with keys entering the parameter string as is
and only values percent encoded, the source signing function computes
exactly the algorithm the specification describes, for every parameter
mapping, that is, every parameter list with pairwise distinct keys. -/
theorem generate_oauth_signature_spec_conformance (method url : Bs) (ps : List (Bs × Bs))
    (cs ts : Bs) (hk : ps.Pairwise (fun a b => a.1 ≠ b.1)) :
    generate_oauth_signature method url ps cs ts = spec_signature method url ps cs ts := by
  have hq : pyQuote = specPctEncode := funext pyQuote_eq_spec
  have hp : paramPiece = fun p : Bs × Bs => p.1 ++ 61 :: specPctEncode p.2 := by
    funext p
    rw [paramPiece, hq]
  simp only [generate_oauth_signature, spec_signature, signingKey, baseString, paramString,
    specParamString, hp, hq, sortPairs_eq_sortByKey hk, joinAmp]
  simp [List.append_assoc]

/-- Witness for the amended claim C1 at a concrete input. -/
theorem generate_oauth_signature_spec_conformance_witness :
    ([([107], [33]), ([108], [34])] : List (Bs × Bs)).Pairwise (fun a b => a.1 ≠ b.1) ∧
      generate_oauth_signature [112] [104] [([107], [33]), ([108], [34])] [99] [116] =
        spec_signature [112] [104] [([107], [33]), ([108], [34])] [99] [116] :=
  ⟨by decide,
    generate_oauth_signature_spec_conformance [112] [104] [([107], [33]), ([108], [34])]
      [99] [116] (by decide)⟩

/-! ## Claim C7 -/

/-- Accumulating appends on the left is concatenation of the rendered
pieces. -/
theorem foldl_append_eq {f : α → Bs} : ∀ (l : List α) (init : Bs),
    l.foldl (fun b x => b ++ f x) init = init ++ (l.map f).foldr (· ++ ·) [] := by
  intro l
  induction l with
  | nil => intro init; simp
  | cons x xs ih => intro init; simp [ih, List.append_assoc]

/-- Claim C7: the multipart body the source builds is byte for byte
the body the specification describes: one form field per parameter,
then the photo field with fixed name, filename and content type
holding the payload read from the start, then the closing boundary. -/
theorem create_multipart_body_matches_spec (params : List (Bs × Bs)) (photo boundary : Bs) :
    create_multipart_body params photo boundary = spec_multipart_body params photo boundary := by
  have hf : fieldWrites boundary = fun p : Bs × Bs => specField boundary p.1 p.2 := by
    funext p
    simp [fieldWrites, specField, List.append_assoc]
  rw [create_multipart_body, spec_multipart_body, foldl_append_eq, hf]
  simp [specPhotoField, specClosing, List.append_assoc]

/-! ## Claim C5 -/

/-- The Bool stat test holds exactly on the string fail. -/
theorem isFailStat_iff (o : Option Json) : isFailStat o = true ↔ o = some (.str "fail") := by
  cases o with
  | none => simp [isFailStat]
  | some j => cases j <;> simp [isFailStat]

/-- Claim C5: a decoded JSON mapping whose stat field is the string
fail makes the call fail with a provider error carrying the message
field of the response, with Unknown error as the default; any other
mapping is returned unchanged. -/
theorem flickr_rest_handle_spec (m : List (String × Json)) :
    (jlookup m "stat" = some (.str "fail") →
      flickr_rest_handle m =
        .error (.providerError ((jlookup m "message").getD (.str "Unknown error")))) ∧
    (jlookup m "stat" ≠ some (.str "fail") → flickr_rest_handle m = .ok m) := by
  constructor
  · intro h
    rw [flickr_rest_handle, if_pos ((isFailStat_iff _).mpr h)]
  · intro h
    rw [flickr_rest_handle, if_neg]
    intro hc
    exact h ((isFailStat_iff _).mp hc)

/-- Witness for claim C5: a concrete failing response with a message,
and a concrete succeeding response. -/
theorem flickr_rest_handle_spec_witness :
    (jlookup [("stat", Json.str "fail"), ("message", Json.str "oops")] "stat" =
        some (Json.str "fail") ∧
      flickr_rest_handle [("stat", Json.str "fail"), ("message", Json.str "oops")] =
        .error (.providerError (Json.str "oops"))) ∧
    (jlookup [("stat", Json.str "ok")] "stat" ≠ some (Json.str "fail") ∧
      flickr_rest_handle [("stat", Json.str "ok")] = .ok [("stat", Json.str "ok")]) :=
  ⟨⟨rfl, (flickr_rest_handle_spec [("stat", Json.str "fail"), ("message", Json.str "oops")]).1 rfl⟩,
    ⟨fun hc => absurd (Json.str.inj (Option.some.inj hc)) (by decide),
      (flickr_rest_handle_spec [("stat", Json.str "ok")]).2
        (fun hc => absurd (Json.str.inj (Option.some.inj hc)) (by decide))⟩⟩

/-! ## Claim C6 -/

/-- Claim C6: an upload response whose root is marked failed yields an
upload error carrying the code and message of the nested err element;
an unfailed root with a photoid element yields the text of that
element; an unfailed root without a photoid element yields the missing
photo id error. -/
theorem parse_upload_response_spec (root : Xml) :
    (xmlAttr root "stat" = some "fail" →
      ∀ e c m, xmlFind root "err" = some e → xmlAttr e "code" = some c →
        xmlAttr e "msg" = some m →
        parse_upload_response root = .error (.uploadError c m)) ∧
    (xmlAttr root "stat" ≠ some "fail" →
      (∀ pe, xmlFind root "photoid" = some pe →
        parse_upload_response root = .ok (pe.text, "ok")) ∧
      (xmlFind root "photoid" = none →
        parse_upload_response root = .error .missingPhotoId)) := by
  constructor
  · intro h e c m he hc hm
    rw [parse_upload_response, if_pos (by simp [h])]
    simp [he, xmlAttrD, hc, hm]
  · intro h
    have hcond : (xmlAttr root "stat" == some "fail") = false := by
      simp [h]
    constructor
    · intro pe hpe
      rw [parse_upload_response, hcond, hpe]
      rfl
    · intro hn
      rw [parse_upload_response, hcond, hn]
      rfl

/-- Witness for claim C6: the three response shapes at concrete parsed
trees. -/
theorem parse_upload_response_spec_witness :
    (xmlAttr (.elem "rsp" [("stat", "fail")]
          [.elem "err" [("code", "5"), ("msg", "bad")] [] none] none) "stat" = some "fail" ∧
      parse_upload_response (.elem "rsp" [("stat", "fail")]
          [.elem "err" [("code", "5"), ("msg", "bad")] [] none] none) =
        .error (.uploadError "5" "bad")) ∧
    (xmlAttr (.elem "rsp" [("stat", "ok")]
          [.elem "photoid" [] [] (some "123")] none) "stat" ≠ some "fail" ∧
      parse_upload_response (.elem "rsp" [("stat", "ok")]
          [.elem "photoid" [] [] (some "123")] none) = .ok (some "123", "ok")) ∧
    (xmlFind (.elem "rsp" [("stat", "ok")] [] none) "photoid" = none ∧
      parse_upload_response (.elem "rsp" [("stat", "ok")] [] none) =
        .error .missingPhotoId) :=
  ⟨⟨rfl,
      (parse_upload_response_spec (.elem "rsp" [("stat", "fail")]
          [.elem "err" [("code", "5"), ("msg", "bad")] [] none] none)).1 rfl
        (.elem "err" [("code", "5"), ("msg", "bad")] [] none) "5" "bad" rfl rfl rfl⟩,
    ⟨by decide,
      ((parse_upload_response_spec (.elem "rsp" [("stat", "ok")]
          [.elem "photoid" [] [] (some "123")] none)).2 (by decide)).1
        (.elem "photoid" [] [] (some "123")) rfl⟩,
    ⟨rfl,
      ((parse_upload_response_spec (.elem "rsp" [("stat", "ok")] [] none)).2 (by decide)).2 rfl⟩⟩

/-! ## Lemmas about the host store -/

/-- Deleting one key leaves every other key alone. -/
theorem storeGet_del_ne (st : Store) (k k' : String) (h : k' ≠ k) :
    storeGet (storeDel st k) k' = storeGet st k' := by
  induction st with
  | nil => rfl
  | cons p ps ih =>
    rw [storeDel]
    by_cases hp : p.1 = k
    · rw [if_pos (by simp [hp]), ih, storeGet, if_neg (by simp [hp]; exact Ne.symm h)]
    · rw [if_neg (by simp [hp]), storeGet, storeGet, ih]

/-- Reading back the key just set yields the value just set. -/
theorem storeGet_set_self (st : Store) (k : String) (v : StVal) :
    storeGet (storeSet st k v) k = some v := by
  simp [storeSet, storeGet]

/-- Setting one key leaves every other key alone. -/
theorem storeGet_set_ne (st : Store) (k k' : String) (v : StVal) (h : k' ≠ k) :
    storeGet (storeSet st k v) k' = storeGet st k' := by
  rw [storeSet, storeGet, if_neg (by simp; exact Ne.symm h)]
  exact storeGet_del_ne st k k' h

/-- Appending the uploaded suffix never produces the counter key. -/
theorem upkey_ne (u : String) : u ++ "_uploaded" ≠ countKey := by
  intro h
  rw [countKey] at h
  have hd : u.data ++ ("_uploaded".data) = ("published_photo_count".data) := by
    have : (u ++ "_uploaded").data = ("published_photo_count" : String).data := by rw [h]
    cases u
    exact this
  have hlen : u.data.length = 12 := by
    have hl := congrArg List.length hd
    rw [List.length_append] at hl
    have h9 : ("_uploaded".data).length = 9 := rfl
    have h21 : (("published_photo_count" : String).data).length = 21 := rfl
    omega
  have h3 : (u.data ++ ("_uploaded".data)).drop 12 = "_uploaded".data := by
    rw [← hlen]
    exact List.drop_left _ _
  have h4 : ("_uploaded".data) = ("published_photo_count".data).drop 12 := by
    rw [← h3, hd]
  exact absurd h4 (by decide)

/-- A successful counter read from a store with a non negative counter
is non negative. -/
theorem readIntD_nonneg {st : Store} {n : Int} (h : countNonneg st)
    (hr : readIntD st countKey 0 = .ok n) : 0 ≤ n := by
  rw [readIntD] at hr
  cases hg : storeGet st countKey with
  | none => rw [hg] at hr; simp at hr; omega
  | some v =>
    cases v with
    | int m =>
      rw [hg] at hr
      simp at hr
      exact hr ▸ h m hg
    | str s => rw [hg] at hr; simp at hr

/-- A successful counter read returns the defaulted counter value. -/
theorem readIntD_countOf {st : Store} {n : Int} (hr : readIntD st countKey 0 = .ok n) :
    countOf st = n := by
  rw [readIntD] at hr
  cases hg : storeGet st countKey with
  | none => rw [hg] at hr; simp at hr; rw [countOf, hg, hr]
  | some v =>
    cases v with
    | int m =>
      rw [hg] at hr
      simp at hr
      rw [countOf, hg, hr]
    | str s => rw [hg] at hr; simp at hr

/-! ## Claim C2 -/

/-- Claim C2: with no stored upload identifier for the UUID and the
stored counter at the configured limit, the publish handler raises the
photo limit policy error and issues no network call. -/
theorem publish_at_limit_policy_error (cfg : Cfg) (env : Env) (data : PhotoData)
    (params : Option Params) (store : Store)
    (h1 : storeGet store (data.uuid ++ "_uploaded") = none)
    (h2 : storeGet store countKey = some (.int cfg.flickr_photo_limit)) :
    (on_photo_publish cfg env data params store).result =
        .error (.limitReached cfg.flickr_photo_limit) ∧
      (on_photo_publish cfg env data params store).calls = [] := by
  rw [on_photo_publish]
  simp [h1, truthyV, readIntD, h2]

/-! ## Claim C3 -/

/-- Claim C3: a publish call for a photo that already has a stored
upload identifier, without force, returns normally, issues no network
call, and leaves the store untouched. -/
theorem publish_already_uploaded_skips (cfg : Cfg) (env : Env) (data : PhotoData)
    (params : Option Params) (store : Store) (fid : String)
    (h1 : storeGet store (data.uuid ++ "_uploaded") = some (.str fid))
    (h2 : fid ≠ "")
    (h3 : forceOf params = false) :
    (on_photo_publish cfg env data params store).result = .ok () ∧
      (on_photo_publish cfg env data params store).calls = [] ∧
      (on_photo_publish cfg env data params store).store = store := by
  rw [on_photo_publish]
  simp [h1, h2, h3, truthyV]

/-! ## Claim C9 -/

/-- Claim C9: an unpublish call for a photo with no stored upload
identifier and force set returns normally, issues no network call and
leaves the store untouched. -/
theorem unpublish_never_uploaded_force_noop (cfg : Cfg) (env : Env) (data : PhotoData)
    (params : Params) (store : Store)
    (h1 : storeGet store (data.uuid ++ "_uploaded") = none)
    (h2 : params.force = true) :
    (on_photo_unpublish cfg env data params store).result = .ok () ∧
      (on_photo_unpublish cfg env data params store).calls = [] ∧
      (on_photo_unpublish cfg env data params store).store = store := by
  rw [on_photo_unpublish]
  simp [h1, h2, truthyV]

/-! ## Claim C4 -/

/-- Claim C4: a forced publish of an already uploaded photo, reaching
a successful upload, returns normally, re uploads (the first recorded
call is the upload), leaves the stored counter untouched and replaces
the stored identifier with the fresh one. -/
theorem publish_force_reupload (cfg : Cfg) (env : Env) (data : PhotoData)
    (params : Option Params) (store : Store) (fid newId : String) (c : Int)
    (h1 : storeGet store (data.uuid ++ "_uploaded") = some (.str fid))
    (h2 : fid ≠ "")
    (h3 : forceOf params = true)
    (h4 : readIntD store countKey 0 = .ok c)
    (h5 : c < cfg.flickr_photo_limit)
    (h6 : env.image = .ok true)
    (h7 : env.upload = .ok (some newId))
    (h8 : newId ≠ "") :
    (on_photo_publish cfg env data params store).result = .ok () ∧
      storeGet (on_photo_publish cfg env data params store).store countKey =
        storeGet store countKey ∧
      storeGet (on_photo_publish cfg env data params store).store (data.uuid ++ "_uploaded") =
        some (.str newId) ∧
      ∃ c0 cs, (on_photo_publish cfg env data params store).calls = c0 :: cs ∧
        c0.isUpload = true := by
  rw [on_photo_publish]
  simp only [h1, h2, h3, h4, h6, h7, truthyV, Bool.not_true, Bool.and_false, Bool.false_eq_true,
    if_false, not_le.mpr h5, Option.getD_some]
  simp [h2, h8, not_le.mpr h5, storeGet_set_self,
    storeGet_set_ne _ _ _ _ (Ne.symm (upkey_ne data.uuid))]

/-! ## Claim C10 -/

/-- Setting an uploaded key preserves a non negative counter. -/
theorem countNonneg_set_upkey {st : Store} (u : String) (v : StVal) (h : countNonneg st) :
    countNonneg (storeSet st (u ++ "_uploaded") v) := by
  intro n hn
  rw [storeGet_set_ne _ _ _ _ (Ne.symm (upkey_ne u))] at hn
  exact h n hn

/-- Setting an uploaded key does not change the counter. -/
theorem countOf_set_upkey (st : Store) (u : String) (v : StVal) :
    countOf (storeSet st (u ++ "_uploaded") v) = countOf st := by
  rw [countOf, countOf, storeGet_set_ne _ _ _ _ (Ne.symm (upkey_ne u))]

/-- Deleting an uploaded key preserves a non negative counter. -/
theorem countNonneg_del_upkey {st : Store} (u : String) (h : countNonneg st) :
    countNonneg (storeDel st (u ++ "_uploaded")) := by
  intro n hn
  rw [storeGet_del_ne _ _ _ (Ne.symm (upkey_ne u))] at hn
  exact h n hn

/-- Deleting an uploaded key does not change the counter. -/
theorem countOf_del_upkey (st : Store) (u : String) :
    countOf (storeDel st (u ++ "_uploaded")) = countOf st := by
  rw [countOf, countOf, storeGet_del_ne _ _ _ (Ne.symm (upkey_ne u))]

/-- Setting the counter to a non negative value keeps it non
negative. -/
theorem countNonneg_set_count {st : Store} {m : Int} (hm : 0 ≤ m) :
    countNonneg (storeSet st countKey (.int m)) := by
  intro n hn
  rw [storeGet_set_self] at hn
  simp at hn
  omega

/-- The counter after setting it. -/
theorem countOf_set_count (st : Store) (m : Int) :
    countOf (storeSet st countKey (.int m)) = m := by
  rw [countOf, storeGet_set_self]

/-- The publish handler preserves a non negative counter and only
ever leaves it alone or increments it by one. -/
theorem publish_count_effect (cfg : Cfg) (env : Env) (data : PhotoData)
    (params : Option Params) (store : Store) (h : countNonneg store) :
    countNonneg (on_photo_publish cfg env data params store).store ∧
      (countOf (on_photo_publish cfg env data params store).store = countOf store ∨
        countOf (on_photo_publish cfg env data params store).store = countOf store + 1) := by
  rw [on_photo_publish]
  by_cases h1 : (truthyV (storeGet store (data.uuid ++ "_uploaded")) && !forceOf params) = true
  · simp only [h1, if_true]
    exact ⟨h, by simp⟩
  · simp only [Bool.not_eq_true] at h1
    simp only [h1, Bool.false_eq_true, if_false]
    cases hr : readIntD store countKey 0 with
    | error e => simp only [hr]; exact ⟨h, by simp⟩
    | ok c =>
      simp only [hr]
      by_cases h2 : cfg.flickr_photo_limit ≤ c
      · simp only [if_pos h2]
        exact ⟨h, by simp⟩
      · simp only [if_neg h2]
        cases him : env.image with
        | error e => simp only [him]; exact ⟨h, by simp⟩
        | ok b =>
          cases b with
          | false => simp only [him]; exact ⟨h, by simp⟩
          | true =>
            simp only [him]
            cases hup : env.upload with
            | error e => simp only [hup]; exact ⟨h, by simp⟩
            | ok pid =>
              simp only [hup]
              by_cases hpid : (pid.getD "" == "") = true
              · simp only [hpid, if_true]
                exact ⟨h, by simp⟩
              · simp only [Bool.not_eq_true] at hpid
                simp only [hpid, Bool.false_eq_true, if_false]
                by_cases hex : truthyV (storeGet store (data.uuid ++ "_uploaded")) = true
                · simp only [hex, if_true]
                  exact ⟨countNonneg_set_upkey _ _ h, Or.inl (countOf_set_upkey _ _ _)⟩
                · simp only [Bool.not_eq_true] at hex
                  simp only [hex, Bool.false_eq_true, if_false]
                  refine ⟨countNonneg_set_upkey _ _ (countNonneg_set_count ?_), Or.inr ?_⟩
                  · have := readIntD_nonneg h hr
                    omega
                  · rw [countOf_set_upkey, countOf_set_count, readIntD_countOf hr]

/-- The unpublish handler preserves a non negative counter and only
ever leaves it alone or, when it is strictly positive, decrements it
by one. -/
theorem unpublish_count_effect (cfg : Cfg) (env : Env) (data : PhotoData)
    (params : Params) (store : Store) (h : countNonneg store) :
    countNonneg (on_photo_unpublish cfg env data params store).store ∧
      (countOf (on_photo_unpublish cfg env data params store).store = countOf store ∨
        (0 < countOf store ∧
          countOf (on_photo_unpublish cfg env data params store).store = countOf store - 1)) := by
  rw [on_photo_unpublish]
  by_cases h1 : (!truthyV (storeGet store (data.uuid ++ "_uploaded")) && !params.force) = true
  · simp only [h1, if_true]
    exact ⟨h, by simp⟩
  · simp only [Bool.not_eq_true] at h1
    simp only [h1, Bool.false_eq_true, if_false]
    by_cases h2 : (!truthyV (storeGet store (data.uuid ++ "_uploaded")) && params.force) = true
    · simp only [h2, if_true]
      exact ⟨h, by simp⟩
    · simp only [Bool.not_eq_true] at h2
      simp only [h2, Bool.false_eq_true, if_false]
      cases hd : env.delete with
      | error e => simp only [hd]; exact ⟨h, by simp⟩
      | ok u =>
        simp only [hd]
        cases hr : readIntD (storeDel store (data.uuid ++ "_uploaded")) countKey 0 with
        | error e =>
          simp only [hr]
          exact ⟨countNonneg_del_upkey _ h, Or.inl (countOf_del_upkey _ _)⟩
        | ok c =>
          simp only [hr]
          by_cases h3 : 0 < c
          · simp only [if_pos h3]
            have hc : countOf store = c := by
              rw [← countOf_del_upkey store data.uuid, readIntD_countOf hr]
            refine ⟨countNonneg_set_count (by omega), Or.inr ⟨by omega, ?_⟩⟩
            rw [countOf_set_count, hc]
          · simp only [if_neg h3]
            exact ⟨countNonneg_del_upkey _ h, Or.inl (countOf_del_upkey _ _)⟩

/-- Claim C10: from a non negative stored counter, both handlers keep
the counter non negative; the publish handler only ever increments it
by one, and the unpublish handler decrements it only when it is
strictly positive. -/
theorem handlers_preserve_counter (cfg : Cfg) (env : Env) (data : PhotoData)
    (params : Option Params) (uparams : Params) (store : Store) (h : countNonneg store) :
    (countNonneg (on_photo_publish cfg env data params store).store ∧
      (countOf (on_photo_publish cfg env data params store).store = countOf store ∨
        countOf (on_photo_publish cfg env data params store).store = countOf store + 1)) ∧
    (countNonneg (on_photo_unpublish cfg env data uparams store).store ∧
      (countOf (on_photo_unpublish cfg env data uparams store).store = countOf store ∨
        (0 < countOf store ∧
          countOf (on_photo_unpublish cfg env data uparams store).store = countOf store - 1))) :=
  ⟨publish_count_effect cfg env data params store h,
    unpublish_count_effect cfg env data uparams store h⟩

/-! ## Witnesses for the handler claims -/

/-- Witness for claim C2 at a concrete store sitting at the limit. -/
theorem publish_at_limit_policy_error_witness :
    storeGet [("published_photo_count", StVal.int 5)] (wData.uuid ++ "_uploaded") = none ∧
      storeGet [("published_photo_count", StVal.int 5)] countKey =
        some (.int wCfg.flickr_photo_limit) ∧
      (on_photo_publish wCfg wEnv wData none
          [("published_photo_count", StVal.int 5)]).result =
        .error (.limitReached wCfg.flickr_photo_limit) ∧
      (on_photo_publish wCfg wEnv wData none
          [("published_photo_count", StVal.int 5)]).calls = [] :=
  ⟨rfl, rfl,
    (publish_at_limit_policy_error wCfg wEnv wData none
      [("published_photo_count", StVal.int 5)] rfl rfl).1,
    (publish_at_limit_policy_error wCfg wEnv wData none
      [("published_photo_count", StVal.int 5)] rfl rfl).2⟩

/-- Witness for claim C3 at a concrete store holding an identifier. -/
theorem publish_already_uploaded_skips_witness :
    storeGet [("u1_uploaded", StVal.str "9")] (wData.uuid ++ "_uploaded") =
        some (.str "9") ∧
      forceOf none = false ∧
      (on_photo_publish wCfg wEnv wData none [("u1_uploaded", StVal.str "9")]).result = .ok () ∧
      (on_photo_publish wCfg wEnv wData none [("u1_uploaded", StVal.str "9")]).calls = [] ∧
      (on_photo_publish wCfg wEnv wData none [("u1_uploaded", StVal.str "9")]).store =
        [("u1_uploaded", StVal.str "9")] :=
  ⟨rfl, rfl,
    (publish_already_uploaded_skips wCfg wEnv wData none [("u1_uploaded", StVal.str "9")] "9"
      rfl (by decide) rfl).1,
    (publish_already_uploaded_skips wCfg wEnv wData none [("u1_uploaded", StVal.str "9")] "9"
      rfl (by decide) rfl).2.1,
    (publish_already_uploaded_skips wCfg wEnv wData none [("u1_uploaded", StVal.str "9")] "9"
      rfl (by decide) rfl).2.2⟩

/-- Witness for claim C4 at a concrete store and a successful forced
re upload. -/
theorem publish_force_reupload_witness :
    storeGet [("u1_uploaded", StVal.str "9"), ("published_photo_count", StVal.int 2)]
        (wData.uuid ++ "_uploaded") = some (.str "9") ∧
      forceOf (some wParamsForce) = true ∧
      readIntD [("u1_uploaded", StVal.str "9"), ("published_photo_count", StVal.int 2)]
        countKey 0 = .ok 2 ∧
      (2 : Int) < wCfg.flickr_photo_limit ∧
      (on_photo_publish wCfg wEnv wData (some wParamsForce)
          [("u1_uploaded", StVal.str "9"), ("published_photo_count", StVal.int 2)]).result =
        .ok () ∧
      storeGet (on_photo_publish wCfg wEnv wData (some wParamsForce)
          [("u1_uploaded", StVal.str "9"), ("published_photo_count", StVal.int 2)]).store
        countKey =
        storeGet [("u1_uploaded", StVal.str "9"), ("published_photo_count", StVal.int 2)]
          countKey ∧
      storeGet (on_photo_publish wCfg wEnv wData (some wParamsForce)
          [("u1_uploaded", StVal.str "9"), ("published_photo_count", StVal.int 2)]).store
        (wData.uuid ++ "_uploaded") = some (.str "77") ∧
      ∃ c0 cs, (on_photo_publish wCfg wEnv wData (some wParamsForce)
          [("u1_uploaded", StVal.str "9"), ("published_photo_count", StVal.int 2)]).calls =
          c0 :: cs ∧ c0.isUpload = true := by
  have hm := publish_force_reupload wCfg wEnv wData (some wParamsForce)
    [("u1_uploaded", StVal.str "9"), ("published_photo_count", StVal.int 2)] "9" "77" 2
    rfl (by decide) rfl rfl (by decide) rfl rfl (by decide)
  exact ⟨rfl, rfl, rfl, by decide, hm.1, hm.2.1, hm.2.2.1, hm.2.2.2⟩

/-- Witness for claim C9 at the empty store with force set. -/
theorem unpublish_never_uploaded_force_noop_witness :
    storeGet [] (wData.uuid ++ "_uploaded") = none ∧
      wParamsForce.force = true ∧
      (on_photo_unpublish wCfg wEnv wData wParamsForce []).result = .ok () ∧
      (on_photo_unpublish wCfg wEnv wData wParamsForce []).calls = [] ∧
      (on_photo_unpublish wCfg wEnv wData wParamsForce []).store = [] :=
  ⟨rfl, rfl,
    (unpublish_never_uploaded_force_noop wCfg wEnv wData wParamsForce [] rfl rfl).1,
    (unpublish_never_uploaded_force_noop wCfg wEnv wData wParamsForce [] rfl rfl).2.1,
    (unpublish_never_uploaded_force_noop wCfg wEnv wData wParamsForce [] rfl rfl).2.2⟩

/-- Witness for claim C10 at a concrete store with counter two. -/
theorem handlers_preserve_counter_witness :
    countNonneg [("published_photo_count", StVal.int 2)] ∧
      ((countNonneg (on_photo_publish wCfg wEnv wData none
            [("published_photo_count", StVal.int 2)]).store ∧
        (countOf (on_photo_publish wCfg wEnv wData none
              [("published_photo_count", StVal.int 2)]).store =
            countOf [("published_photo_count", StVal.int 2)] ∨
          countOf (on_photo_publish wCfg wEnv wData none
              [("published_photo_count", StVal.int 2)]).store =
            countOf [("published_photo_count", StVal.int 2)] + 1)) ∧
      (countNonneg (on_photo_unpublish wCfg wEnv wData wParamsForce
            [("published_photo_count", StVal.int 2)]).store ∧
        (countOf (on_photo_unpublish wCfg wEnv wData wParamsForce
              [("published_photo_count", StVal.int 2)]).store =
            countOf [("published_photo_count", StVal.int 2)] ∨
          (0 < countOf [("published_photo_count", StVal.int 2)] ∧
            countOf (on_photo_unpublish wCfg wEnv wData wParamsForce
                [("published_photo_count", StVal.int 2)]).store =
              countOf [("published_photo_count", StVal.int 2)] - 1)))) :=
  ⟨fun n hn => by simp [storeGet] at hn; omega,
    handlers_preserve_counter wCfg wEnv wData none wParamsForce
      [("published_photo_count", StVal.int 2)]
      (fun n hn => by simp [storeGet] at hn; omega)⟩

/-! ## Order lemmas for the byte and pair comparisons -/

/-- The byte order is irreflexive. -/
theorem bytesLt_irrefl : ∀ a : Bs, bytesLtB a a = false := by
  intro a
  induction a with
  | nil => rfl
  | cons x xs ih => rw [bytesLtB]; simp [ih]

/-- The byte order is transitive. -/
theorem bytesLt_trans : ∀ {a b c : Bs}, bytesLtB a b = true → bytesLtB b c = true →
    bytesLtB a c = true := by
  intro a
  induction a with
  | nil =>
    intro b c h1 h2
    cases b with
    | nil => simp [bytesLtB] at h1
    | cons y ys =>
      cases c with
      | nil => simp [bytesLtB] at h2
      | cons z zs => rfl
  | cons x xs ih =>
    intro b c h1 h2
    cases b with
    | nil => simp [bytesLtB] at h1
    | cons y ys =>
      cases c with
      | nil => simp [bytesLtB] at h2
      | cons z zs =>
        rw [bytesLtB] at h1 h2 ⊢
        by_cases hxy : x < y
        · by_cases hyz : y < z
          · simp [show x < z by omega]
          · by_cases hzy : z < y
            · simp [hyz, hzy] at h2
            · simp [show x < z by omega]
        · by_cases hyx : y < x
          · simp [hxy, hyx] at h1
          · simp [hxy, hyx] at h1
            by_cases hyz : y < z
            · simp [show x < z by omega]
            · by_cases hzy : z < y
              · simp [hyz, hzy] at h2
              · simp [hyz, hzy] at h2
                simp [show ¬x < z by omega, show ¬z < x by omega, ih h1 h2]

/-- The pair order is irreflexive. -/
theorem pairLt_irrefl (p : Bs × Bs) : pairLtB p p = false := by
  rw [pairLtB]
  simp [bytesLt_irrefl]

/-- Pairs neither of which precedes the other are equal. -/
theorem pairLt_connex {p q : Bs × Bs} (h1 : pairLtB p q = false) (h2 : pairLtB q p = false) :
    p = q := by
  rw [pairLtB] at h1 h2
  by_cases ha : bytesLtB p.1 q.1
  · simp [ha] at h1
  · by_cases hb : bytesLtB q.1 p.1
    · simp [hb] at h2
    · simp [ha, hb] at h1 h2
      have hk := bytesLt_connex (Bool.of_not_eq_true ha) (Bool.of_not_eq_true hb)
      have hv := bytesLt_connex h1 h2
      cases p
      cases q
      simp_all

/-- The pair order is transitive. -/
theorem pairLt_trans {p q r : Bs × Bs} (h1 : pairLtB p q = true) (h2 : pairLtB q r = true) :
    pairLtB p r = true := by
  rw [pairLtB] at h1 h2 ⊢
  by_cases ha : bytesLtB p.1 q.1
  · by_cases hb : bytesLtB q.1 r.1
    · simp [bytesLt_trans ha hb]
    · by_cases hc : bytesLtB r.1 q.1
      · simp [hb, hc] at h2
      · have hqr : q.1 = r.1 := bytesLt_connex (Bool.of_not_eq_true hb) (Bool.of_not_eq_true hc)
        simp [← hqr, ha]
  · by_cases hb : bytesLtB q.1 p.1
    · simp [ha, hb] at h1
    · have hpq : p.1 = q.1 := bytesLt_connex (Bool.of_not_eq_true ha) (Bool.of_not_eq_true hb)
      simp [ha, hb] at h1
      by_cases hc : bytesLtB q.1 r.1
      · simp [hpq, hc]
      · by_cases hd : bytesLtB r.1 q.1
        · simp [hc, hd] at h2
        · simp [hc, hd] at h2
          have hqr : q.1 = r.1 := bytesLt_connex (Bool.of_not_eq_true hc) (Bool.of_not_eq_true hd)
          rw [hpq, hqr]
          simp [bytesLt_irrefl, bytesLt_trans h1 h2]

/-- The pair order is total. -/
theorem pairLe_total (p q : Bs × Bs) : pairLeB p q = true ∨ pairLeB q p = true := by
  rw [pairLeB, pairLeB]
  cases hpq : pairLtB p q with
  | false => right; simp [hpq]
  | true =>
    left
    cases hqp : pairLtB q p with
    | false => simp
    | true =>
      have := pairLt_trans hpq hqp
      rw [pairLt_irrefl] at this
      exact absurd this (by simp)

/-- The non strict pair order is transitive. -/
theorem pairLe_trans {p q r : Bs × Bs} (h1 : pairLeB p q = true) (h2 : pairLeB q r = true) :
    pairLeB p r = true := by
  rw [pairLeB] at h1 h2 ⊢
  simp only [Bool.not_eq_true'] at h1 h2 ⊢
  cases hrp : pairLtB r p with
  | false => rfl
  | true =>
    exfalso
    cases hqr : pairLtB q r with
    | true =>
      have := pairLt_trans hqr hrp
      rw [h1] at this
      exact Bool.noConfusion this
    | false =>
      have hqr2 : q = r := pairLt_connex hqr h2
      rw [← hqr2] at hrp
      rw [h1] at hrp
      exact Bool.noConfusion hrp

/-! ## Sortedness and permutation facts for the insertion sort -/

/-- Inserting into a sorted list keeps it sorted, for a total and
transitive order. -/
theorem insertSorted_pairwise {le : α → α → Bool}
    (htot : ∀ a b, le a b = true ∨ le b a = true)
    (htrans : ∀ {a b c}, le a b = true → le b c = true → le a c = true)
    (x : α) : ∀ {l : List α}, l.Pairwise (fun a b => le a b = true) →
      (insertSorted le x l).Pairwise (fun a b => le a b = true) := by
  intro l
  induction l with
  | nil => intro _; simp [insertSorted]
  | cons y ys ih =>
    intro h
    obtain ⟨hy, hys⟩ := List.pairwise_cons.mp h
    rw [insertSorted]
    by_cases hc : le x y = true
    · rw [if_pos hc]
      refine List.pairwise_cons.mpr ⟨?_, h⟩
      intro z hz
      rcases List.mem_cons.mp hz with rfl | hz
      · exact hc
      · exact htrans hc (hy z hz)
    · rw [if_neg hc]
      have hyx : le y x = true := (htot x y).resolve_left hc
      refine List.pairwise_cons.mpr ⟨?_, ih hys⟩
      intro z hz
      rcases mem_insertSorted.mp hz with rfl | hz
      · exact hyx
      · exact hy z hz

/-- The insertion sort sorts, for a total and transitive order. -/
theorem sortBy_pairwise {le : α → α → Bool}
    (htot : ∀ a b, le a b = true ∨ le b a = true)
    (htrans : ∀ {a b c}, le a b = true → le b c = true → le a c = true) :
    ∀ l : List α, (sortBy le l).Pairwise (fun a b => le a b = true) := by
  intro l
  induction l with
  | nil => simp [sortBy]
  | cons x xs ih => rw [sortBy]; exact insertSorted_pairwise htot htrans x ih

/-- Inserting permutes the element onto the list. -/
theorem insertSorted_perm (le : α → α → Bool) (x : α) :
    ∀ l : List α, (insertSorted le x l).Perm (x :: l) := by
  intro l
  induction l with
  | nil => simp [insertSorted]
  | cons y ys ih =>
    rw [insertSorted]
    by_cases h : le x y = true
    · rw [if_pos h]
    · rw [if_neg h]
      exact (ih.cons y).trans (List.Perm.swap x y ys)

/-- The insertion sort permutes its input. -/
theorem sortBy_perm (le : α → α → Bool) : ∀ l : List α, (sortBy le l).Perm l := by
  intro l
  induction l with
  | nil => simp [sortBy]
  | cons x xs ih => rw [sortBy]; exact (insertSorted_perm le x _).trans (ih.cons x)

/-! ## Injectivity of the percent encoding and the parameter string -/

/-- Upper case hex digits are injective. -/
theorem hexUpper_inj {d e : Nat} (h : hexUpper d = hexUpper e) : d = e := by
  rw [hexUpper, hexUpper] at h
  split_ifs at h <;> omega

/-- The percent byte is not safe. -/
theorem safe_ne_37 {b : Nat} (hb : isSafeByte b = true) : b ≠ 37 := by
  intro hc
  subst hc
  exact absurd hb (by decide)

/-- The percent encoder is injective on byte strings. -/
theorem pyQuote_inj : ∀ {a b : Bs}, pyQuote a = pyQuote b → a = b := by
  intro a
  induction a with
  | nil =>
    intro b h
    cases b with
    | nil => rfl
    | cons c cs =>
      exfalso
      rw [pyQuote, pyQuote, pctByte] at h
      split_ifs at h <;> simp at h
  | cons x xs ih =>
    intro b h
    cases b with
    | nil =>
      exfalso
      rw [pyQuote, pyQuote, pctByte] at h
      split_ifs at h <;> simp at h
    | cons y ys =>
      rw [pyQuote, pyQuote, pctByte, pctByte] at h
      by_cases hx : isSafeByte x <;> by_cases hy : isSafeByte y
      · rw [if_pos hx, if_pos hy] at h
        simp at h
        simp [h.1, ih h.2]
      · rw [if_pos hx, if_neg hy] at h
        simp at h
        exact absurd h.1 (safe_ne_37 hx)
      · rw [if_neg hx, if_pos hy] at h
        simp at h
        exact absurd h.1.symm (safe_ne_37 hy)
      · rw [if_neg hx, if_neg hy] at h
        simp at h
        have e1 := hexUpper_inj h.1
        have e2 := hexUpper_inj h.2.1
        have hxy : x = y := by omega
        simp [hxy, ih h.2.2]

/-- Hex digits are never the ampersand byte. -/
theorem hexUpper_ne_38 (d : Nat) : hexUpper d ≠ 38 := by
  rw [hexUpper]
  split_ifs <;> omega

/-- The percent encoder never emits the ampersand byte. -/
theorem not_mem_38_pyQuote : ∀ v : Bs, 38 ∉ pyQuote v := by
  intro v
  induction v with
  | nil => simp [pyQuote]
  | cons b r ih =>
    rw [pyQuote, pctByte]
    split_ifs with hb
    · simp [ih]
      intro hc
      subst hc
      exact absurd hb (by decide)
    · simp [ih, hexUpper_ne_38]
      exact ⟨fun hc => hexUpper_ne_38 _ hc.symm, fun hc => hexUpper_ne_38 _ hc.symm⟩

/-- A byte string followed by an ampersand and a tail determines both,
as long as the byte string is ampersand free. -/
theorem amp_split : ∀ {a b x y : Bs}, 38 ∉ a → 38 ∉ b → a ++ 38 :: x = b ++ 38 :: y →
    a = b ∧ x = y := by
  intro a
  induction a with
  | nil =>
    intro b x y _ hb h
    cases b with
    | nil => simpa using h
    | cons c cs =>
      exfalso
      simp at h
      exact hb (by simp [← h.1])
  | cons u us ih =>
    intro b x y ha hb h
    cases b with
    | nil =>
      exfalso
      simp at h
      exact ha (by simp [h.1])
    | cons c cs =>
      simp at h
      obtain ⟨huc, hrest⟩ := h
      obtain ⟨h1, h2⟩ := ih (fun hm => ha (List.mem_cons_of_mem _ hm))
        (fun hm => hb (List.mem_cons_of_mem _ hm)) hrest
      exact ⟨by simp [huc, h1], h2⟩

/-- The joined parameter string determines the sorted parameter list,
once the two lists carry the same keys in the same positions. -/
theorem paramPieces_inj : ∀ {l1 l2 : List (Bs × Bs)}, l1.map Prod.fst = l2.map Prod.fst →
    joinAmp (l1.map paramPiece) = joinAmp (l2.map paramPiece) → l1 = l2 := by
  intro l1
  induction l1 with
  | nil =>
    intro l2 hk _
    cases l2 with
    | nil => rfl
    | cons q qs => simp at hk
  | cons p ps ih =>
    intro l2 hk h
    cases l2 with
    | nil => simp at hk
    | cons q qs =>
      simp at hk
      obtain ⟨hkey, hktail⟩ := hk
      cases ps with
      | nil =>
        cases qs with
        | cons q2 qs2 => simp at hktail
        | nil =>
          simp only [List.map_cons, List.map_nil, joinAmp] at h
          rw [paramPiece, paramPiece, hkey] at h
          have h2 := List.append_cancel_left h
          simp at h2
          have hv := pyQuote_inj h2
          cases p
          cases q
          simp_all
      | cons p2 ps2 =>
        cases qs with
        | nil => simp at hktail
        | cons q2 qs2 =>
          simp only [List.map_cons, joinAmp, paramPiece] at h
          rw [hkey, List.append_assoc, List.append_assoc] at h
          have h2 := List.append_cancel_left h
          simp only [List.cons_append, List.cons.injEq, true_and] at h2
          have h3 := amp_split (not_mem_38_pyQuote p.2) (not_mem_38_pyQuote q.2) h2
          have hv := pyQuote_inj h3.1
          have htail : (p2 :: ps2) = (q2 :: qs2) := by
            apply ih hktail
            simpa only [List.map_cons, joinAmp, paramPiece] using h3.2
          cases p
          cases q
          simp_all

/-! ## The key sequence under one value replacement -/

/-- Replacing an entry of a list by itself is the identity. -/
theorem set_get_self : ∀ (l : List α) (i : Nat) (h : i < l.length),
    l.set i (l.get ⟨i, h⟩) = l := by
  intro l
  induction l with
  | nil => intro i h; simp at h
  | cons x xs ih =>
    intro i h
    cases i with
    | zero => simp
    | succ j =>
      have hj : j < xs.length := by simpa using h
      show x :: xs.set j (xs.get ⟨j, hj⟩) = x :: xs
      rw [ih j hj]

/-- Replacing the value at one position keeps the key sequence. -/
theorem map_fst_set (ps : List (Bs × Bs)) (i : Nat) (hi : i < ps.length) (v : Bs) :
    (ps.set i ((ps.get ⟨i, hi⟩).1, v)).map Prod.fst = ps.map Prod.fst := by
  rw [List.map_set]
  have h2 : i < (ps.map Prod.fst).length := by simpa using hi
  have h3 : (ps.map Prod.fst).get ⟨i, h2⟩ = (ps.get ⟨i, hi⟩).1 := by simp
  rw [← h3, set_get_self]

/-- The key sequence of a pair sorted list is sorted by the key
order. -/
theorem sorted_keys_of_sorted_pairs {l : List (Bs × Bs)}
    (h : l.Pairwise (fun a b => pairLeB a b = true)) :
    (l.map Prod.fst).Pairwise (fun a b : Bs => bytesLtB b a = false) := by
  refine List.Pairwise.map Prod.fst ?_ h
  intro a b hab
  rw [pairLeB] at hab
  have h2 : pairLtB b a = false := by
    cases hlt : pairLtB b a
    · rfl
    · rw [hlt] at hab; exact absurd hab (by simp)
  rw [pairLtB] at h2
  by_cases hk : bytesLtB b.1 a.1
  · rw [if_pos hk] at h2; exact absurd h2 (by simp)
  · exact Bool.of_not_eq_true hk

/-! ## Claim C8, amended -/

/-- Claim C8, amended: over the same pairwise distinct keys, changing
the value of exactly one parameter always changes the signature base
string, hence the input of the HMAC; the signatures themselves can
collide because the digest has only twenty bytes. -/
theorem baseString_value_sensitivity (method url : Bs) (ps : List (Bs × Bs)) (i : Nat)
    (hi : i < ps.length) (v2 : Bs)
    (hk : ps.Pairwise (fun a b => a.1 ≠ b.1))
    (hne : v2 ≠ (ps.get ⟨i, hi⟩).2) :
    baseString method url ps ≠ baseString method url (ps.set i ((ps.get ⟨i, hi⟩).1, v2)) := by
  intro hbase
  simp only [baseString, joinAmp] at hbase
  have h1 := List.append_cancel_left hbase
  have h2 := List.append_cancel_left (List.cons.inj h1).2
  have h3 : paramString ps = paramString (ps.set i ((ps.get ⟨i, hi⟩).1, v2)) :=
    pyQuote_inj (List.cons.inj h2).2
  rw [paramString, paramString] at h3
  have hfst : ps.map Prod.fst = (ps.set i ((ps.get ⟨i, hi⟩).1, v2)).map Prod.fst :=
    (map_fst_set ps i hi v2).symm
  have hperm : ((sortPairs ps).map Prod.fst).Perm
      ((sortPairs (ps.set i ((ps.get ⟨i, hi⟩).1, v2))).map Prod.fst) := by
    refine ((sortBy_perm pairLeB ps).map Prod.fst).trans ?_
    rw [hfst]
    exact ((sortBy_perm pairLeB _).map Prod.fst).symm
  have hs1 := sorted_keys_of_sorted_pairs (sortBy_pairwise pairLe_total pairLe_trans ps)
  have hs2 := sorted_keys_of_sorted_pairs
    (sortBy_pairwise pairLe_total pairLe_trans (ps.set i ((ps.get ⟨i, hi⟩).1, v2)))
  have hkeys : (sortPairs ps).map Prod.fst =
      (sortPairs (ps.set i ((ps.get ⟨i, hi⟩).1, v2))).map Prod.fst := by
    letI : IsAntisymm Bs (fun a b : Bs => bytesLtB b a = false) :=
      ⟨fun a b ha hb => bytesLt_connex hb ha⟩
    exact List.eq_of_perm_of_sorted hperm hs1 hs2
  have hsort : sortPairs ps = sortPairs (ps.set i ((ps.get ⟨i, hi⟩).1, v2)) :=
    paramPieces_inj hkeys h3
  have hm1 : ps.get ⟨i, hi⟩ ∈ sortPairs ps := mem_sortBy.mpr (List.get_mem ps i hi)
  rw [hsort] at hm1
  have hm2 : ps.get ⟨i, hi⟩ ∈ ps.set i ((ps.get ⟨i, hi⟩).1, v2) := mem_sortBy.mp hm1
  obtain ⟨j, hj, hjq⟩ := List.mem_iff_getElem.mp hm2
  have hjlen : j < ps.length := by simpa using hj
  by_cases hij : j = i
  · subst hij
    rw [List.getElem_set_self] at hjq
    exact hne (congrArg Prod.snd hjq)
  · have hne2 : i ≠ j := fun hc => hij hc.symm
    rw [List.getElem_set_ne hne2] at hjq
    have hkeyeq := congrArg Prod.fst hjq
    rcases Nat.lt_or_ge j i with hlt | hge
    · exact (List.pairwise_iff_getElem.mp hk j i hjlen hi hlt) hkeyeq
    · have hlt2 : i < j := by omega
      exact (List.pairwise_iff_getElem.mp hk i j hi hjlen hlt2) hkeyeq.symm

/-- Witness for the amended claim C8 at a concrete one parameter
list. -/
theorem baseString_value_sensitivity_witness :
    ([([107], [97])] : List (Bs × Bs)).Pairwise (fun a b => a.1 ≠ b.1) ∧
      ([98] : Bs) ≠ (([([107], [97])] : List (Bs × Bs)).get ⟨0, by decide⟩).2 ∧
      baseString [80] [104] [([107], [97])] ≠ baseString [80] [104] [([107], [98])] :=
  ⟨by decide, by decide,
    baseString_value_sensitivity [80] [104] [([107], [97])] 0 (by decide) [98]
      (by decide) (by decide)⟩

/-! ## The signature collision: claim C8 as frozen is false -/

/-- A word renders to four bytes. -/
theorem w2b4_length (n : Nat) : (w2b4 n).length = 4 := rfl

/-- Rendered word bytes are bytes. -/
theorem w2b4_lt (n : Nat) : ∀ b ∈ w2b4 n, b < 256 := by
  intro b hb
  simp [w2b4] at hb
  rcases hb with h | h | h | h <;> omega

/-- Every SHA1 digest has twenty bytes. -/
theorem sha1_length (msg : Bs) : (sha1 msg).length = 20 := by
  rcases hq : sha1Chunks (sha1Pad msg) (1732584193, 4023233417, 2562383102, 271733878, 3285377520)
    with ⟨a, b, c, d, e⟩
  rw [sha1, hq]
  simp [w2b4]

/-- Every SHA1 digest byte is a byte. -/
theorem sha1_lt (msg : Bs) : ∀ x ∈ sha1 msg, x < 256 := by
  intro x hx
  rcases hq : sha1Chunks (sha1Pad msg) (1732584193, 4023233417, 2562383102, 271733878, 3285377520)
    with ⟨a, b, c, d, e⟩
  rw [sha1, hq] at hx
  simp [w2b4] at hx
  rcases hx with h | h | h | h | h | h | h | h | h | h | h | h | h | h | h | h | h | h | h | h <;>
    omega

/-- The HMAC digest has twenty bytes. -/
theorem hmacSha1_length (key msg : Bs) : (hmacSha1 key msg).length = 20 := sha1_length _

/-- Every HMAC digest byte is a byte. -/
theorem hmacSha1_lt (key msg : Bs) : ∀ x ∈ hmacSha1 key msg, x < 256 := sha1_lt _

/-- The packed value of a byte string is below the capacity of its
length. -/
theorem listVal_lt : ∀ {l : Bs}, (∀ b ∈ l, b < 256) → listVal l < 256 ^ l.length := by
  intro l
  induction l with
  | nil => intro _; simp [listVal]
  | cons b r ih =>
    intro h
    have hb : b < 256 := h b (by simp)
    have hr := ih (fun x hx => h x (by simp [hx]))
    rw [listVal, List.length_cons, pow_succ]
    omega

/-- Packing is injective on byte strings of equal length. -/
theorem listVal_inj : ∀ {l1 l2 : Bs}, l1.length = l2.length → (∀ b ∈ l1, b < 256) →
    (∀ b ∈ l2, b < 256) → listVal l1 = listVal l2 → l1 = l2 := by
  intro l1
  induction l1 with
  | nil =>
    intro l2 hl _ _ _
    cases l2 with
    | nil => rfl
    | cons c s => simp at hl
  | cons b r ih =>
    intro l2 hl h1 h2 hv
    cases l2 with
    | nil => simp at hl
    | cons c s =>
      rw [listVal, listVal] at hv
      have hb : b < 256 := h1 b (by simp)
      have hc : c < 256 := h2 c (by simp)
      have hbc : b = c := by omega
      have hrs : listVal r = listVal s := by omega
      have htail := ih (by simpa using hl) (fun x hx => h1 x (by simp [hx]))
        (fun x hx => h2 x (by simp [hx])) hrs
      simp [hbc, htail]

/-- Two distinct value lengths with the same HMAC digest exist, by
pigeonhole from the infinitude of values into the finitely many twenty
byte digests. -/
theorem cexDigest_collision : ∃ n m : Nat, n ≠ m ∧ cexDigest n = cexDigest m := by
  have hlen : ∀ n : Nat, (cexDigest n).length = 20 := by
    intro n
    rw [cexDigest]
    exact hmacSha1_length _ _
  have hlt : ∀ n : Nat, ∀ x ∈ cexDigest n, x < 256 := by
    intro n
    rw [cexDigest]
    exact hmacSha1_lt _ _
  have hfin : ∀ n : Nat, listVal (cexDigest n) < 256 ^ 20 := by
    intro n
    have hb := listVal_lt (hlt n)
    rwa [hlen n] at hb
  obtain ⟨n, m, hne, heq⟩ := Finite.exists_ne_map_eq_of_infinite
    (fun n : ℕ => (⟨listVal (cexDigest n), hfin n⟩ : Fin (256 ^ 20)))
  simp only [Fin.mk.injEq] at heq
  refine ⟨n, m, hne, ?_⟩
  exact listVal_inj (by rw [hlen n, hlen m]) (hlt n) (hlt m) heq

/-- Claim C8 as frozen is false: there are two parameter mappings over
the same single key, differing only in the value of that parameter,
on which the signing function produces the same signature, because the
HMAC SHA1 digest ranges over finitely many values while the parameter
values do not. -/
theorem generate_oauth_signature_collision :
    ∃ v1 v2 : Bs, v1 ≠ v2 ∧
      generate_oauth_signature [80] [104] [([107], v1)] [115] [116] =
        generate_oauth_signature [80] [104] [([107], v2)] [115] [116] := by
  obtain ⟨n, m, hne, heq⟩ := cexDigest_collision
  refine ⟨cexValue n, cexValue m, ?_, ?_⟩
  · intro hc
    have hlen := congrArg List.length hc
    simp [cexValue] at hlen
    exact hne hlen
  · show base64encode (cexDigest n) = base64encode (cexDigest m)
    rw [heq]

end Flickr
